import Mathlib

/-! The method `DataProcessor.Increment` of gonative-lib.

A shallow embedding of `gonative-lib/data-processor.go` and the properties of
its single method.

Go's `int` is a two's complement integer whose width `w` depends on the target
(32 or 64 bits).  Values of type `int` are represented as `Int`s in the range
`-2^(w-1) ≤ x < 2^(w-1)`, and `+` on `int` is the mathematical sum brought back
into that range by `wrapInt w`.

A Go `error` is represented by the text its `Error()` method returns; `nil` is
`none`.  The pointer identity of the value allocated by `errors.New` is not
represented.
-/

namespace gonativelib

/-! ## Go's `int` -/

/-- The values of a `w`-bit two's complement integer. -/
def inRange (w : Nat) (x : Int) : Prop :=
  -(2 : Int) ^ (w - 1) ≤ x ∧ x < (2 : Int) ^ (w - 1)

instance (w : Nat) (x : Int) : Decidable (inRange w x) := by
  unfold inRange; infer_instance

/-- The largest `w`-bit `int`. -/
def maxInt (w : Nat) : Int := (2 : Int) ^ (w - 1) - 1

/-- The smallest `w`-bit `int`. -/
def minInt (w : Nat) : Int := -(2 : Int) ^ (w - 1)

/-- The signed reading of a `w`-bit pattern `u`, `0 ≤ u < 2^w`. -/
def twosComplement (w : Nat) (u : Int) : Int :=
  if u < (2 : Int) ^ (w - 1) then u else u - (2 : Int) ^ w

/-- The result of an `int` operation whose mathematical value is `x`: the low
`w` bits of `x`, read as a signed number. -/
def wrapInt (w : Nat) (x : Int) : Int :=
  twosComplement w (x % (2 : Int) ^ w)

/-! ## Go's `error` -/

/-- A non-nil `error` value, as seen through its `Error()` method. -/
structure GoError where
  msg : String
  deriving DecidableEq, Repr

/-- The method `Error()` of an error value. -/
def GoError.Error (e : GoError) : String := e.msg

namespace errors

/-- The function `errors.New` of the standard library. -/
def New (text : String) : GoError := ⟨text⟩

end errors

/-! ## `data-processor.go` -/

/-- The struct `DataProcessor`: it declares no field. -/
structure DataProcessor where
  deriving DecidableEq, Repr

/-- The pair `(int, error)` a call of `Increment` returns. -/
abbrev Result := Int × Option GoError

/-- The method `func (p *DataProcessor) Increment(data int) (int, error)`.
The receiver is a pointer, so the method is written in state-passing form: the
first component is the value `*p` holds when the method returns. -/
def Increment (w : Nat) (p : DataProcessor) (data : Int) : DataProcessor × Result :=
  if data < 0 then
    (p, (data, some (errors.New "data can't be negative")))
  else
    (p, (wrapInt w (data + 1), none))

/-- A sequence of calls of `Increment` on one `DataProcessor`, one call after
the other: the final value of the receiver and the results in call order. -/
def callSeq (w : Nat) (p : DataProcessor) : List Int → DataProcessor × List Result
  | [] => (p, [])
  | a :: rest =>
    let (p1, r) := Increment w p a
    let (p2, rs) := callSeq w p1 rest
    (p2, r :: rs)

/-- The integer component of the pair `Increment` returns. -/
def retInt (w : Nat) (p : DataProcessor) (data : Int) : Int := (Increment w p data).2.1

/-- The error component of the pair `Increment` returns. -/
def retErr (w : Nat) (p : DataProcessor) (data : Int) : Option GoError :=
  (Increment w p data).2.2

/-! ## Arithmetic of `wrapInt` -/

theorem two_pow_width (w : Nat) (hw : 1 ≤ w) :
    (2 : Int) ^ w = 2 * (2 : Int) ^ (w - 1) ∧ 0 < (2 : Int) ^ (w - 1) := by
  obtain ⟨k, rfl⟩ : ∃ k, w = k + 1 := ⟨w - 1, by omega⟩
  refine ⟨?_, by positivity⟩
  simp only [Nat.add_sub_cancel, pow_succ]
  ring

theorem emod_shift (M x k : Int) (h0 : 0 ≤ x + k * M) (h1 : x + k * M < M) :
    x % M = x + k * M := by
  rw [← Int.add_mul_emod_self]
  exact Int.emod_eq_of_lt h0 h1

/-- A value of the `int` range is what `wrapInt` leaves unchanged. -/
theorem wrapInt_of_inRange (w : Nat) (hw : 1 ≤ w) (x : Int) (h : inRange w x) :
    wrapInt w x = x := by
  obtain ⟨hM, hP⟩ := two_pow_width w hw
  unfold inRange at h
  unfold wrapInt twosComplement
  generalize (2 : Int) ^ w = M at *
  generalize (2 : Int) ^ (w - 1) = P at *
  rcases lt_or_le x 0 with hx | hx
  · rw [emod_shift M x 1 (by omega) (by omega)]
    split <;> omega
  · rw [emod_shift M x 0 (by omega) (by omega)]
    split <;> omega

/-- One range above: `wrapInt` subtracts `2^w`. -/
theorem wrapInt_above (w : Nat) (hw : 1 ≤ w) (x : Int)
    (h1 : (2 : Int) ^ (w - 1) ≤ x) (h2 : x < 3 * (2 : Int) ^ (w - 1)) :
    wrapInt w x = x - (2 : Int) ^ w := by
  obtain ⟨hM, hP⟩ := two_pow_width w hw
  unfold wrapInt twosComplement
  generalize (2 : Int) ^ w = M at *
  generalize (2 : Int) ^ (w - 1) = P at *
  rcases lt_or_le x M with hx | hx
  · rw [emod_shift M x 0 (by omega) (by omega)]
    split <;> omega
  · rw [emod_shift M x (-1) (by omega) (by omega)]
    split <;> omega

/-- One range below: `wrapInt` adds `2^w`. -/
theorem wrapInt_below (w : Nat) (hw : 1 ≤ w) (x : Int)
    (h1 : -3 * (2 : Int) ^ (w - 1) ≤ x) (h2 : x < -(2 : Int) ^ (w - 1)) :
    wrapInt w x = x + (2 : Int) ^ w := by
  obtain ⟨hM, hP⟩ := two_pow_width w hw
  unfold wrapInt twosComplement
  generalize (2 : Int) ^ w = M at *
  generalize (2 : Int) ^ (w - 1) = P at *
  rcases lt_or_le x (-M) with hx | hx
  · rw [emod_shift M x 2 (by omega) (by omega)]
    split <;> omega
  · rw [emod_shift M x 1 (by omega) (by omega)]
    split <;> omega

/-! ## The two branches of `Increment` -/

theorem Increment_neg (w : Nat) (p : DataProcessor) (data : Int) (h : data < 0) :
    Increment w p data = (p, (data, some (errors.New "data can't be negative"))) := by
  unfold Increment
  rw [if_pos h]

theorem Increment_nonneg (w : Nat) (p : DataProcessor) (data : Int) (h : 0 ≤ data) :
    Increment w p data = (p, (wrapInt w (data + 1), none)) := by
  unfold Increment
  rw [if_neg (not_lt.mpr h)]

/-- The receiver is left as it was found. -/
theorem Increment_receiver (w : Nat) (p : DataProcessor) (data : Int) :
    (Increment w p data).1 = p := by
  unfold Increment
  split <;> rfl

theorem callSeq_receiver (w : Nat) (p : DataProcessor) (args : List Int) :
    (callSeq w p args).1 = p := by
  induction args generalizing p with
  | nil => rfl
  | cons a rest ih =>
    simp only [callSeq]

/-- The pair returned does not depend on the receiver. -/
theorem Increment_result_receiver (w : Nat) (p q : DataProcessor) (data : Int) :
    (Increment w p data).2 = (Increment w q data).2 := by
  unfold Increment
  split <;> rfl

theorem callSeq_results (w : Nat) (p q : DataProcessor) (args : List Int) :
    (callSeq w p args).2 = args.map (fun a => (Increment w q a).2) := by
  induction args generalizing p with
  | nil => rfl
  | cons a rest ih =>
    simp only [callSeq, List.map_cons]
    rw [ih, Increment_result_receiver w p q a]

/-! ## Non-negative input -/

/-- C1, as stated, fails at the largest `int`: for the 64-bit and the 32-bit
`int` the input `maxInt` is a non-negative value of the type and `Increment`
returns `minInt` with a nil error, which is not the integer `maxInt + 1`. -/
theorem Increment_maxInt_not_succ :
    (inRange 64 (2 ^ 63 - 1) ∧ (0 : Int) ≤ 2 ^ 63 - 1
      ∧ (Increment 64 {} (2 ^ 63 - 1)).2 = (-(2 ^ 63), none)
      ∧ (Increment 64 {} (2 ^ 63 - 1)).2 ≠ ((2 ^ 63 - 1) + 1, none))
    ∧ (inRange 32 (2 ^ 31 - 1) ∧ (0 : Int) ≤ 2 ^ 31 - 1
      ∧ (Increment 32 {} (2 ^ 31 - 1)).2 = (-(2 ^ 31), none)
      ∧ (Increment 32 {} (2 ^ 31 - 1)).2 ≠ ((2 ^ 31 - 1) + 1, none)) := by
  decide

/-- C1 (amended): with an `int` of at least 4 bits, for every `n` with
`0 ≤ n < maxInt` the call `Increment(n)` returns `n + 1` and a nil error, and
leaves the receiver unchanged; in particular `Increment(0) = (1, nil)` and
`Increment(5) = (6, nil)`. -/
theorem Increment_succ_below_maxInt (w : Nat) (hw : 4 ≤ w) (p : DataProcessor) :
    (∀ n : Int, 0 ≤ n → n < maxInt w → Increment w p n = (p, (n + 1, none)))
    ∧ (Increment w p 0).2 = (1, none)
    ∧ (Increment w p 5).2 = (6, none) := by
  have hgen : ∀ n : Int, 0 ≤ n → n < maxInt w → Increment w p n = (p, (n + 1, none)) := by
    intro n h0 hlt
    rw [Increment_nonneg w p n h0, wrapInt_of_inRange w (by omega) (n + 1)]
    unfold maxInt at hlt
    unfold inRange
    omega
  have h8 : (8 : Int) ≤ (2 : Int) ^ (w - 1) := by
    obtain ⟨k, rfl⟩ : ∃ k, w = k + 4 := ⟨w - 4, by omega⟩
    have hk : (1 : Int) ≤ (2 : Int) ^ k := one_le_pow₀ (by norm_num)
    have hs : (2 : Int) ^ (k + 4 - 1) = 8 * (2 : Int) ^ k := by
      rw [show k + 4 - 1 = k + 3 by omega, pow_add]
      ring
    omega
  refine ⟨hgen, ?_, ?_⟩
  · rw [hgen 0 (by decide) (by unfold maxInt; omega)]
    rfl
  · rw [hgen 5 (by decide) (by unfold maxInt; omega)]
    rfl

theorem Increment_succ_below_maxInt_witness :
    (4 ≤ 64) ∧ ((0 : Int) ≤ 41 ∧ (41 : Int) < maxInt 64
      ∧ Increment 64 {} 41 = ({}, (42, none)))
    ∧ (Increment 64 {} 0).2 = (1, none) ∧ (Increment 64 {} 5).2 = (6, none) :=
  ⟨by decide,
   ⟨by decide, by decide,
    (Increment_succ_below_maxInt 64 (by decide) {}).1 41 (by decide) (by decide)⟩,
   (Increment_succ_below_maxInt 64 (by decide) {}).2.1,
   (Increment_succ_below_maxInt 64 (by decide) {}).2.2⟩

/-! ## Negative input -/

/-- C2: for every `n < 0`, `Increment(n)` returns a non-nil error whose message
is exactly "data can't be negative", a non-empty text, together with the input
`n` itself; so it is for `-1` and for `-1000`. -/
theorem Increment_negative (w : Nat) (p : DataProcessor) :
    (∀ n : Int, n < 0 →
      ∃ e : GoError, (Increment w p n).2 = (n, some e)
        ∧ e.Error = "data can't be negative" ∧ e.Error ≠ "")
    ∧ (Increment w p (-1)).2 = (-1, some (errors.New "data can't be negative"))
    ∧ (Increment w p (-1000)).2 = (-1000, some (errors.New "data can't be negative")) := by
  refine ⟨?_, ?_, ?_⟩
  · intro n hn
    refine ⟨errors.New "data can't be negative", ?_, rfl, by decide⟩
    rw [Increment_neg w p n hn]
  · rw [Increment_neg w p (-1) (by decide)]
  · rw [Increment_neg w p (-1000) (by decide)]

theorem Increment_negative_witness :
    ((-7 : Int) < 0 ∧ ∃ e : GoError, (Increment 64 {} (-7)).2 = (-7, some e)
        ∧ e.Error = "data can't be negative" ∧ e.Error ≠ "")
    ∧ (Increment 64 {} (-1)).2 = (-1, some (errors.New "data can't be negative")) :=
  ⟨⟨by decide, (Increment_negative 64 {}).1 (-7) (by decide)⟩,
   (Increment_negative 64 {}).2.1⟩

/-- C3: `Increment` returns an error exactly when its input is below zero, and
whatever the input, an error it returns carries the message
"data can't be negative". -/
theorem Increment_error_iff_negative (w : Nat) (p : DataProcessor) (n : Int) :
    (retErr w p n ≠ none ↔ n < 0)
    ∧ (∀ (q : DataProcessor) (m : Int) (e : GoError),
        retErr w q m = some e → e.Error = "data can't be negative") := by
  constructor
  · unfold retErr
    rcases lt_or_le n 0 with h | h
    · rw [Increment_neg w p n h]
      simp [h]
    · rw [Increment_nonneg w p n h]
      simp [h]
  · intro q m e he
    unfold retErr at he
    rcases lt_or_le m 0 with h | h
    · rw [Increment_neg w q m h] at he
      cases he
      rfl
    · rw [Increment_nonneg w q m h] at he
      cases he

theorem Increment_error_iff_negative_witness :
    (retErr 64 {} (-3) ≠ none ↔ (-3 : Int) < 0)
    ∧ (retErr 64 {} (-3) = some (errors.New "data can't be negative")
        ∧ (errors.New "data can't be negative").Error = "data can't be negative") :=
  ⟨(Increment_error_iff_negative 64 {} (-3)).1,
   by decide,
   (Increment_error_iff_negative 64 {} (-3)).2 {} (-3) _ (by decide)⟩

/-! ## Determinism and the receiver -/

/-- C4: two calls of `Increment` with the same input, on any receivers and in
particular one after the other on the same receiver, return the same integer
and the same outcome with the same error message; a negative input fails both
times with the same error. -/
theorem Increment_deterministic (w : Nat) (p q : DataProcessor) (n : Int) :
    retInt w p n = retInt w q n
    ∧ (retErr w p n).map GoError.Error = (retErr w q n).map GoError.Error
    ∧ (callSeq w p [n, n]).2 = [(Increment w p n).2, (Increment w p n).2]
    ∧ (n < 0 → ∃ e : GoError, (callSeq w p [n, n]).2 = [(n, some e), (n, some e)]) := by
  refine ⟨?_, ?_, ?_, ?_⟩
  · unfold retInt
    rw [Increment_result_receiver w p q n]
  · unfold retErr
    rw [Increment_result_receiver w p q n]
  · rw [callSeq_results w p p [n, n]]
    rfl
  · intro hn
    refine ⟨errors.New "data can't be negative", ?_⟩
    rw [callSeq_results w p p [n, n]]
    simp only [List.map_cons, List.map_nil]
    rw [Increment_neg w p n hn]

theorem Increment_deterministic_witness :
    (-4 : Int) < 0
    ∧ ∃ e : GoError, (callSeq 32 {} [-4, -4]).2 = [(-4, some e), (-4, some e)] :=
  ⟨by decide, (Increment_deterministic 32 {} {} (-4)).2.2.2 (by decide)⟩

/-- C5: a sequence of `Increment` calls on one `DataProcessor` leaves it as it
was, the result of each call is the result of that call on a fresh
`DataProcessor`, and so is the result of a call made after any sequence of
earlier calls, failed or not. -/
theorem callSeq_stateless (w : Nat) (p : DataProcessor) (args : List Int) :
    (callSeq w p args).1 = p
    ∧ (callSeq w p args).2 = args.map (fun a => (Increment w {} a).2)
    ∧ (∀ n : Int, (Increment w (callSeq w p args).1 n).2 = (Increment w {} n).2)
    ∧ (∀ n : Int, (callSeq w p (args ++ [n])).2
        = (callSeq w p args).2 ++ [(Increment w {} n).2]) := by
  refine ⟨callSeq_receiver w p args, callSeq_results w p {} args, ?_, ?_⟩
  · intro n
    exact Increment_result_receiver w _ {} n
  · intro n
    rw [callSeq_results w p {} (args ++ [n]), callSeq_results w p {} args]
    simp

/-! ## The width of `int` -/

/-- For an `int`, the sum `data + 1` either stays in range or is the one value
`2^(w-1)`, which wraps to `-2^(w-1)`. -/
theorem wrapInt_succ (w : Nat) (hw : 1 ≤ w) (a : Int) (ha : inRange w a) :
    (a + 1 < (2 : Int) ^ (w - 1) ∧ wrapInt w (a + 1) = a + 1)
    ∨ (a = (2 : Int) ^ (w - 1) - 1 ∧ wrapInt w (a + 1) = -(2 : Int) ^ (w - 1)) := by
  obtain ⟨hM, hP⟩ := two_pow_width w hw
  unfold inRange at ha
  rcases lt_or_le (a + 1) ((2 : Int) ^ (w - 1)) with h | h
  · left
    refine ⟨h, wrapInt_of_inRange w hw (a + 1) ?_⟩
    unfold inRange
    omega
  · right
    refine ⟨by omega, ?_⟩
    rw [wrapInt_above w hw (a + 1) h (by omega)]
    omega

/-- C7: with a `w`-bit `int`, for every `n` with `0 ≤ n < 2^(w-1) - 1` the
integer returned is the mathematical `n + 1`, greater than `n` and at least 1,
with a nil error; for `n = 2^(w-1) - 1` the call also returns a nil error, and
the integer returned is `(n + 1) mod 2^w` read in two's complement, which is
the smallest `int`, `-2^(w-1)`, a negative number. -/
theorem Increment_overflow (w : Nat) (hw : 1 ≤ w) (p : DataProcessor) :
    (∀ n : Int, 0 ≤ n → n < (2 : Int) ^ (w - 1) - 1 →
      retInt w p n = n + 1 ∧ n < retInt w p n ∧ 1 ≤ retInt w p n ∧ retErr w p n = none)
    ∧ retErr w p ((2 : Int) ^ (w - 1) - 1) = none
    ∧ retInt w p ((2 : Int) ^ (w - 1) - 1)
        = twosComplement w ((((2 : Int) ^ (w - 1) - 1) + 1) % (2 : Int) ^ w)
    ∧ retInt w p ((2 : Int) ^ (w - 1) - 1) = minInt w
    ∧ retInt w p ((2 : Int) ^ (w - 1) - 1) < 0 := by
  obtain ⟨hM, hP⟩ := two_pow_width w hw
  have hmax0 : (0 : Int) ≤ (2 : Int) ^ (w - 1) - 1 := by omega
  have hmax : wrapInt w (((2 : Int) ^ (w - 1) - 1) + 1) = -(2 : Int) ^ (w - 1) := by
    rcases wrapInt_succ w hw ((2 : Int) ^ (w - 1) - 1) (by unfold inRange; omega) with h | h
    · omega
    · exact h.2
  unfold retInt retErr
  refine ⟨?_, ?_, ?_, ?_, ?_⟩
  · intro n h0 hlt
    rw [Increment_nonneg w p n h0, wrapInt_of_inRange w hw (n + 1) (by unfold inRange; omega)]
    dsimp only
    exact ⟨rfl, by omega, by omega, rfl⟩
  · rw [Increment_nonneg w p _ hmax0]
  · rw [Increment_nonneg w p _ hmax0]
    rfl
  · rw [Increment_nonneg w p _ hmax0]
    exact hmax
  · rw [Increment_nonneg w p _ hmax0]
    show wrapInt w (((2 : Int) ^ (w - 1) - 1) + 1) < 0
    omega

theorem Increment_overflow_witness :
    (1 ≤ 64)
    ∧ ((0 : Int) ≤ 9 ∧ (9 : Int) < (2 : Int) ^ (64 - 1) - 1
        ∧ retInt 64 {} 9 = 9 + 1 ∧ 9 < retInt 64 {} 9 ∧ 1 ≤ retInt 64 {} 9
        ∧ retErr 64 {} 9 = none)
    ∧ retErr 64 {} ((2 : Int) ^ (64 - 1) - 1) = none
    ∧ retInt 64 {} ((2 : Int) ^ (64 - 1) - 1) = minInt 64
    ∧ retInt 64 {} ((2 : Int) ^ (64 - 1) - 1) < 0 :=
  ⟨by decide,
   ⟨by decide, by decide,
    (Increment_overflow 64 (by decide) {}).1 9 (by decide) (by decide)⟩,
   (Increment_overflow 64 (by decide) {}).2.1,
   (Increment_overflow 64 (by decide) {}).2.2.2.1,
   (Increment_overflow 64 (by decide) {}).2.2.2.2⟩

/-! ## The result determines the input -/

/-- C8: with a `w`-bit `int`, two inputs for which `Increment` returns the same
integer and the same outcome (both a nil error, or both an error) are equal;
the integer returned equals the input exactly when an error is returned; and
the input is the integer returned on failure, and the integer returned minus
one, in `w`-bit arithmetic, on success. -/
theorem Increment_result_determines_input (w : Nat) (hw : 1 ≤ w) (p q : DataProcessor)
    (a b : Int) (ha : inRange w a) (hb : inRange w b) :
    (retInt w p a = retInt w q b → (retErr w p a = none ↔ retErr w q b = none) → a = b)
    ∧ (retInt w p a = a ↔ retErr w p a ≠ none)
    ∧ (retErr w p a ≠ none → a = retInt w p a)
    ∧ (retErr w p a = none → a = wrapInt w (retInt w p a - 1)) := by
  obtain ⟨hM, hP⟩ := two_pow_width w hw
  have hsa := wrapInt_succ w hw a ha
  have hsb := wrapInt_succ w hw b hb
  unfold retInt retErr
  rcases lt_or_le a 0 with ha0 | ha0
  · rw [Increment_neg w p a ha0]
    refine ⟨?_, by simp, fun _ => rfl, by simp⟩
    rcases lt_or_le b 0 with hb0 | hb0
    · rw [Increment_neg w q b hb0]
      intro h _
      exact h
    · rw [Increment_nonneg w q b hb0]
      intro _ h
      simp at h
  · rw [Increment_nonneg w p a ha0]
    dsimp only
    refine ⟨?_, ?_, by simp, ?_⟩
    · rcases lt_or_le b 0 with hb0 | hb0
      · rw [Increment_neg w q b hb0]
        intro _ h
        simp at h
      · rw [Increment_nonneg w q b hb0]
        dsimp only
        intro h _
        unfold inRange at ha hb
        omega
    · constructor
      · intro h
        omega
      · intro h
        exact absurd rfl h
    · intro _
      rcases hsa with ⟨_, h⟩ | ⟨hmax, h⟩
      · rw [h, add_sub_cancel_right]
        exact (wrapInt_of_inRange w hw a ha).symm
      · rw [h, wrapInt_below w hw _ (by omega) (by omega)]
        omega

theorem Increment_result_determines_input_witness :
    (1 ≤ 64) ∧ inRange 64 (2 ^ 63 - 1) ∧ inRange 64 (-(2 ^ 63))
    ∧ (retErr 64 {} (2 ^ 63 - 1) = none
        ∧ (2 ^ 63 - 1 : Int) = wrapInt 64 (retInt 64 {} (2 ^ 63 - 1) - 1))
    ∧ (retInt 64 {} (2 ^ 63 - 1) = (2 ^ 63 - 1 : Int) ↔ retErr 64 {} (2 ^ 63 - 1) ≠ none) :=
  ⟨by decide, by decide, by decide,
   ⟨by decide,
    (Increment_result_determines_input 64 (by decide) {} {} (2 ^ 63 - 1) (-(2 ^ 63))
      (by decide) (by decide)).2.2.2 (by decide)⟩,
   (Increment_result_determines_input 64 (by decide) {} {} (2 ^ 63 - 1) (-(2 ^ 63))
      (by decide) (by decide)).2.1⟩

end gonativelib
